import Mathlib

/-!
Shallow embedding of `src/product_extractor.py` (class `InventoryDataExtractor`).

The program drives a browser through login, navigation and extraction of a
paginated product table.  The embedding models the parts the claims are
about:

* Python `dict` with string keys and values, as an association list with
  insert-or-overwrite semantics (`dictInsert`), mirroring `product[k] = v`;
* the row-to-record construction of table mode
  (`extract_product_data`, lines 183-190): `buildRecord`;
* the pagination loop (lines 177-201): `extractLoop` over an environment
  that fixes, for each page, its visible rows and the outcome of the
  "next"-button probe.  A page with no visible data row makes
  `wait_for_selector("table tbody tr")` time out, which the surrounding
  `try` re-raises, hence `Except.error`;
* the fallback (card/div) extraction (lines 203-223): `processElem`,
  `fallbackExtract`;
* the session save guard (`save_session`, lines 69-80): `save_session`;
* the navigation step sequence (`navigate_to_product_table`,
  lines 118-165): `navigate_to_product_table` over an environment saying
  which affordances appear within their bounded waits;
* the orchestration of session writes in `run` (lines 29-55):
  `run_session_write_count`.
-/

namespace ProductExtractor

/-- Python `str.strip()`: drop whitespace characters from both ends of the
string, modelled over the string's character list.  (Lean's own
`String.trim` computes the same characters but goes through `Substring`
functions defined by well-founded recursion, which the kernel cannot
evaluate, so the model uses structural recursion.) -/
def strip (s : String) : String :=
  String.mk (((s.data.dropWhile Char.isWhitespace).reverse.dropWhile
    Char.isWhitespace).reverse)

/-- Python `dict[str, str]` as an association list without duplicate keys
(insertion order preserved, as in CPython). -/
abbrev Dict := List (String × String)

/-- `d[k] = v`: overwrite the value at an existing key in place, otherwise
append the new pair at the end. -/
def dictInsert : Dict → String → String → Dict
  | [], k, v => [(k, v)]
  | (a, b) :: rest, k, v =>
      if a = k then (a, v) :: rest else (a, b) :: dictInsert rest k v

/-- `d.get(k)`. -/
def dictLookup : Dict → String → Option String
  | [], _ => none
  | (a, b) :: rest, k => if k = a then some b else dictLookup rest k

/-- `list(d.keys())`. -/
def dictKeys (d : Dict) : List String := d.map Prod.fst

/-- The inner cell loop of table mode (lines 183-190): iterate over the
cells of a row with their index `i`; when `i < len(headers)` set
`product[headers[i]] = cell.text_content().strip()`. -/
def buildRecordAux (headers : List String) : Nat → List String → Dict → Dict
  | _, [], product => product
  | i, c :: cs, product =>
      buildRecordAux headers (i + 1) cs
        (if i < headers.length then dictInsert product (headers.getD i "") (strip c)
         else product)

/-- The Product Record built from one row: `product = {}` then the cell
loop. -/
def buildRecord (headers cells : List String) : Dict :=
  buildRecordAux headers 0 cells []

end ProductExtractor

namespace ProductExtractor

/-- Outcome of `page.query_selector("button:has-text('Next') >> visible=true")`
followed by `get_attribute("disabled")` (lines 192-193): the button may be
absent, present with a given `disabled` attribute value (`none` = attribute
absent), or the probe itself may raise. -/
inductive NextProbe where
  | absent
  | found (disabled : Option String)
  | probeError
deriving DecidableEq

/-- Python truthiness of `await next_button.get_attribute("disabled")`:
`None` and `""` are falsy, any other string truthy. -/
def attrTruthy : Option String → Bool
  | none => false
  | some s => !(s == "")

/-- The branch of line 193: the loop clicks and continues exactly when the
button was found and its `disabled` attribute is falsy; an absent button or
a raising probe ends the loop. -/
def nextEnabled : NextProbe → Bool
  | NextProbe.found d => !attrTruthy d
  | _ => false

/-- One page of the environment: the rows visible in `table tbody tr`
(each row its list of `td` text contents) and the "next"-probe outcome
after this page. -/
structure PageState where
  rows : List (List String)
  next : NextProbe
deriving DecidableEq

/-- The pagination loop of table mode (lines 177-201).  On each page:
`wait_for_selector("table tbody tr", state="visible")` — with no visible
row this times out, the outer `try` of `extract_product_data` re-raises
(`Except.error`); otherwise every row is read into a record and appended,
then the "next" probe decides whether to click and continue with
`page_num + 1`.  Running past the environment's page list is also an
error (the environment must list every page the loop visits). -/
def extractLoop (headers : List String) :
    List PageState → Nat → List Dict → Except Unit (List Dict × Nat)
  | [], _, _ => Except.error ()
  | p :: rest, pageNum, products =>
      if p.rows = [] then Except.error ()
      else
        let products' := products ++ p.rows.map (buildRecord headers)
        if nextEnabled p.next then extractLoop headers rest (pageNum + 1) products'
        else Except.ok (products', pageNum)

/-- A fallback-mode container element (lines 204-218): the text content of
a name-like sub-element if one matches, likewise for price, the element's
own raw text content, and whether processing this element raises. -/
structure FallbackElem where
  nameText : Option String
  priceText : Option String
  text : String
  failing : Bool
deriving DecidableEq

/-- Per-element fallback processing (lines 205-218): on error the element
is skipped (`none`); otherwise `product["Name"]`/`product["Price"]` are the
raw text contents of the matched sub-elements, and if the record is still
empty, `product["Content"]` is the element's raw text content. -/
def processElem (e : FallbackElem) : Option Dict :=
  if e.failing then none
  else
    let d1 : Dict := match e.nameText with
      | some s => dictInsert [] "Name" s
      | none => []
    let d2 : Dict := match e.priceText with
      | some s => dictInsert d1 "Price" s
      | none => d1
    let d3 : Dict := if d2 = [] then dictInsert d2 "Content" e.text else d2
    some d3

/-- The placeholder record of line 221. -/
def placeholderRecord : Dict := [("Content", "Page content extracted, see HTML file")]

/-- Fallback extraction (lines 203-223): process each container element,
skipping the failing ones; if no record was produced, emit the single
placeholder record and dump the page content to `product_page.html`
(the Bool records whether that dump was written). -/
def fallbackExtract (elems : List FallbackElem) : List Dict × Bool :=
  let products := elems.filterMap processElem
  if products = [] then ([placeholderRecord], true) else (products, false)

/-- The page state `extract_product_data` observes: either
`page.query_selector("table")` finds a table (with its header texts and
the pagination environment), or it does not (with the fallback container
elements found). -/
inductive PageStructure where
  | withTable (headers : List String) (pages : List PageState)
  | noTable (elems : List FallbackElem)

/-- Result of `extract_product_data`: table mode returning the records and
the final `page_num`, table mode aborting with a re-raised exception, or
fallback mode returning its records and whether the placeholder page dump
was written. -/
inductive ExtractOutcome where
  | tableOk (products : List Dict) (pages : Nat)
  | tableError
  | fallbackOk (products : List Dict) (dumpedPage : Bool)
deriving DecidableEq

/-- `extract_product_data` (lines 167-228): branch on the table probe;
table mode reads the header texts once, strips each (lines 174-176), and
runs the pagination loop starting at `page_num = 1`; fallback mode runs
`fallbackExtract`. -/
def extract_product_data : PageStructure → ExtractOutcome
  | PageStructure.withTable headers pages =>
      match extractLoop (headers.map strip) pages 1 [] with
      | Except.ok (products, n) => ExtractOutcome.tableOk products n
      | Except.error _ => ExtractOutcome.tableError
  | PageStructure.noTable elems =>
      ExtractOutcome.fallbackOk (fallbackExtract elems).1 (fallbackExtract elems).2

/-- Whether the outcome came from fallback mode. -/
def isFallback : ExtractOutcome → Bool
  | ExtractOutcome.fallbackOk _ _ => true
  | _ => false

/-- Whether `extract_product_data` re-raised (table-mode abort). -/
def isError : ExtractOutcome → Bool
  | ExtractOutcome.tableError => true
  | _ => false

/-- `context.storage_state()` as `save_session` inspects it: the cookie
list and the origin-storage list (only emptiness matters to the guard, so
entries are kept abstract as strings). -/
structure StorageState where
  cookies : List String
  origins : List String
deriving DecidableEq

/-- What `save_session` does with the captured state. -/
inductive SaveAction where
  | writeFile (s : StorageState)
  | warnEmpty
deriving DecidableEq

/-- `save_session` (lines 69-80): `if storage_state["cookies"] or
storage_state["origins"]` — Python truthiness of a list is non-emptiness —
write the session file, else log a warning (and take a debug screenshot);
every exception is caught and logged, so the call never raises. -/
def save_session (s : StorageState) : SaveAction :=
  if !s.cookies.isEmpty || !s.origins.isEmpty then SaveAction.writeFile s
  else SaveAction.warnEmpty

/-- How many session-file writes a `SaveAction` performs. -/
def save_write_count : SaveAction → Nat
  | SaveAction.writeFile _ => 1
  | SaveAction.warnEmpty => 0

/-- The branch condition of `run` line 38:
`if not session_loaded or await self.is_login_page(page)`. -/
def freshAuthPath (sessionLoaded loginPage : Bool) : Bool :=
  !sessionLoaded || loginPage

/-- Session-file writes performed by one `run` (lines 34-43): only the
fresh-authentication branch calls `save_session`, and only after
`authenticate` returned without raising (`authOk`); `load_session` only
reads the file. -/
def run_session_write_count (sessionLoaded loginPage authOk : Bool)
    (captured : StorageState) : Nat :=
  if freshAuthPath sessionLoaded loginPage then
    if authOk then save_write_count (save_session captured) else 0
  else 0

/-- Which affordances of `navigate_to_product_table` (lines 118-165)
appear within their bounded waits. -/
structure NavEnv where
  openOptions : Bool
  inventoryTab : Bool
  detailedViewButton : Bool
  dialogOption : Bool
  showTableButton : Bool
deriving DecidableEq

/-- Outcome of `navigate_to_product_table`: the diagnostic files written,
in order, and whether the call returned normally (`ok = false` means it
raised). -/
structure NavResult where
  artifacts : List String
  ok : Bool
deriving DecidableEq

/-- `navigate_to_product_table` (lines 118-165): the three required
`wait_for_selector` steps raise on timeout and are caught only by the
outer handler (screenshot `error_screenshot.png`, re-raise); the dialog
step (lines 139-145) swallows its timeout; the final required step
(lines 147-158) on timeout writes `debug_screenshot.png` and
`page_content.html`, re-raises, and the outer handler adds
`error_screenshot.png` before re-raising again.  There is no retry: each
step is attempted once. -/
def navigate_to_product_table (env : NavEnv) : NavResult :=
  if !env.openOptions then ⟨["error_screenshot.png"], false⟩
  else if !env.inventoryTab then ⟨["error_screenshot.png"], false⟩
  else if !env.detailedViewButton then ⟨["error_screenshot.png"], false⟩
  else if !env.showTableButton then
    ⟨["debug_screenshot.png", "page_content.html", "error_screenshot.png"], false⟩
  else ⟨[], true⟩

end ProductExtractor

namespace ProductExtractor

/-! ### Lemmas about the dict model -/

theorem dictKeys_cons (p : String × String) (d : Dict) :
    dictKeys (p :: d) = p.1 :: dictKeys d := rfl

theorem dictInsert_cons_eq (a b v : String) (rest : Dict) :
    dictInsert ((a, b) :: rest) a v = (a, v) :: rest := by
  simp [dictInsert]

theorem dictInsert_cons_ne (a b k v : String) (rest : Dict) (hak : a ≠ k) :
    dictInsert ((a, b) :: rest) k v = (a, b) :: dictInsert rest k v := by
  simp [dictInsert, hak]

theorem dictLookup_dictInsert (d : Dict) (k v k' : String) :
    dictLookup (dictInsert d k v) k' = if k' = k then some v else dictLookup d k' := by
  induction d with
  | nil => simp [dictInsert, dictLookup]
  | cons p rest ih =>
      obtain ⟨a, b⟩ := p
      by_cases hak : a = k
      · subst hak
        rw [dictInsert_cons_eq]
        show (if k' = a then some v else dictLookup rest k') = _
        by_cases h1 : k' = a <;> simp [dictLookup, h1]
      · rw [dictInsert_cons_ne _ _ _ _ _ hak]
        show (if k' = a then some b else dictLookup (dictInsert rest k v) k') =
          if k' = k then some v else dictLookup ((a, b) :: rest) k'
        rw [ih, show dictLookup ((a, b) :: rest) k' =
          (if k' = a then some b else dictLookup rest k') from rfl]
        by_cases h1 : k' = a <;> by_cases h2 : k' = k
        · exact absurd (h1.symm.trans h2) hak
        · rw [if_pos h1, if_neg h2, if_pos h1]
        · rw [if_neg h1, if_pos h2, if_pos h2]
        · rw [if_neg h1, if_neg h2, if_neg h2, if_neg h1]

theorem mem_dictKeys_dictInsert {d : Dict} {k v k' : String} :
    k' ∈ dictKeys (dictInsert d k v) ↔ k' = k ∨ k' ∈ dictKeys d := by
  induction d with
  | nil => simp [dictInsert, dictKeys]
  | cons q rest ih =>
      obtain ⟨a, b⟩ := q
      by_cases hak : a = k
      · subst hak
        rw [dictInsert_cons_eq, dictKeys_cons, dictKeys_cons]
        simp only [List.mem_cons]
        tauto
      · rw [dictInsert_cons_ne _ _ _ _ _ hak, dictKeys_cons, dictKeys_cons]
        simp only [List.mem_cons, ih]
        tauto

theorem mem_dictInsert {d : Dict} {k v : String} {p : String × String}
    (hp : p ∈ dictInsert d k v) : p = (k, v) ∨ p ∈ d := by
  induction d with
  | nil => exact Or.inl (List.mem_singleton.mp hp)
  | cons q rest ih =>
      obtain ⟨a, b⟩ := q
      by_cases hak : a = k
      · subst hak
        rw [dictInsert_cons_eq, List.mem_cons] at hp
        rcases hp with hp | hp
        · exact Or.inl hp
        · exact Or.inr (List.mem_cons_of_mem _ hp)
      · rw [dictInsert_cons_ne _ _ _ _ _ hak, List.mem_cons] at hp
        rcases hp with hp | hp
        · exact Or.inr (by rw [hp]; exact List.mem_cons_self _ _)
        · rcases ih hp with hp' | hp'
          · exact Or.inl hp'
          · exact Or.inr (List.mem_cons_of_mem _ hp')

/-! ### Lemmas about the table-mode row record -/

theorem buildRecordAux_nil (h : List String) (i : Nat) (acc : Dict) :
    buildRecordAux h i [] acc = acc := rfl

theorem buildRecordAux_cons (h : List String) (i : Nat) (c : String)
    (cs : List String) (acc : Dict) :
    buildRecordAux h i (c :: cs) acc =
      buildRecordAux h (i + 1) cs
        (if i < h.length then dictInsert acc (h.getD i "") (strip c) else acc) := rfl

/-- If no cell index of `cs` (at absolute header indices `i`, `i+1`, …)
carries the key `k`, the cell loop leaves the value at `k` unchanged. -/
theorem dictLookup_buildRecordAux_of_not_mem (h : List String) (k : String) :
    ∀ (cs : List String) (i : Nat) (acc : Dict),
      (∀ q, q < cs.length → i + q < h.length → h.getD (i + q) "" ≠ k) →
      dictLookup (buildRecordAux h i cs acc) k = dictLookup acc k := by
  intro cs
  induction cs with
  | nil => intro i acc _; rfl
  | cons c cs ih =>
      intro i acc hq
      rw [buildRecordAux_cons, ih]
      · by_cases hi : i < h.length
        · have h0 : h.getD (i + 0) "" ≠ k :=
            hq 0 (Nat.succ_pos _) (by rw [Nat.add_zero]; exact hi)
          rw [Nat.add_zero] at h0
          rw [if_pos hi, dictLookup_dictInsert, if_neg fun hk => h0 hk.symm]
        · rw [if_neg hi]
      · intro q hqlen hqh
        have e1 : i + (q + 1) = (i + 1) + q := by omega
        have := hq (q + 1) (Nat.succ_lt_succ hqlen) (by omega)
        rw [e1] at this
        exact this

/-- The value the cell loop leaves at `headers[p]` is the stripped text of
cell `p`, provided no later in-range cell carries the same header. -/
theorem dictLookup_buildRecordAux_last (h : List String) :
    ∀ (cs : List String) (i p : Nat) (acc : Dict),
      p < cs.length → i + p < h.length →
      (∀ q, p < q → q < cs.length → i + q < h.length →
        h.getD (i + q) "" ≠ h.getD (i + p) "") →
      dictLookup (buildRecordAux h i cs acc) (h.getD (i + p) "") =
        some (strip (cs.getD p "")) := by
  intro cs
  induction cs with
  | nil => intro i p acc hp; exact absurd hp (Nat.not_lt_zero p)
  | cons c cs ih =>
      intro i p acc hp hph hlast
      match p with
      | 0 =>
          rw [Nat.add_zero] at hph ⊢
          rw [buildRecordAux_cons, if_pos hph,
            dictLookup_buildRecordAux_of_not_mem]
          · rw [dictLookup_dictInsert, if_pos rfl]
            rfl
          · intro q hqlen hqh
            have e1 : i + (q + 1) = (i + 1) + q := by omega
            have := hlast (q + 1) (Nat.succ_pos q) (Nat.succ_lt_succ hqlen) (by omega)
            rw [e1, Nat.add_zero] at this
            exact this
      | p' + 1 =>
          rw [buildRecordAux_cons]
          have hip : i + (p' + 1) = (i + 1) + p' := by omega
          rw [hip]
          have hres := ih (i + 1) p'
            (if i < h.length then dictInsert acc (h.getD i "") (strip c) else acc)
            (Nat.lt_of_succ_lt_succ hp) (by omega) ?later
          · rw [hres]
            rfl
          case later =>
            intro q hq hqlen hqh
            have e1 : i + (q + 1) = (i + 1) + q := by omega
            have := hlast (q + 1) (Nat.succ_lt_succ hq) (Nat.succ_lt_succ hqlen) (by omega)
            rw [e1, hip] at this
            exact this

/-- Every key of the record the cell loop builds is a key of the
accumulator or a header. -/
theorem mem_dictKeys_buildRecordAux (h : List String) :
    ∀ (cs : List String) (i : Nat) (acc : Dict) (k : String),
      k ∈ dictKeys (buildRecordAux h i cs acc) → k ∈ dictKeys acc ∨ k ∈ h := by
  intro cs
  induction cs with
  | nil => intro i acc k hk; exact Or.inl hk
  | cons c cs ih =>
      intro i acc k hk
      rw [buildRecordAux_cons] at hk
      rcases ih (i + 1) _ k hk with hk' | hk'
      · by_cases hi : i < h.length
        · rw [if_pos hi] at hk'
          rcases mem_dictKeys_dictInsert.mp hk' with rfl | hk''
          · exact Or.inr (List.getD_eq_getElem h "" hi ▸ List.getElem_mem hi)
          · exact Or.inl hk''
        · rw [if_neg hi] at hk'
          exact Or.inl hk'
      · exact Or.inr hk'

/-- Every value of the record the cell loop builds is a value of the
accumulator or the stripped text of one of the cells. -/
theorem mem_buildRecordAux (h : List String) :
    ∀ (cs : List String) (i : Nat) (acc : Dict) (p : String × String),
      p ∈ buildRecordAux h i cs acc → p ∈ acc ∨ ∃ c ∈ cs, p.2 = strip c := by
  intro cs
  induction cs with
  | nil => intro i acc p hp; exact Or.inl hp
  | cons c cs ih =>
      intro i acc p hp
      rw [buildRecordAux_cons] at hp
      rcases ih (i + 1) _ p hp with hp' | hp'
      · by_cases hi : i < h.length
        · rw [if_pos hi] at hp'
          rcases mem_dictInsert hp' with rfl | hp''
          · exact Or.inr ⟨c, List.mem_cons_self _ _, rfl⟩
          · exact Or.inl hp''
        · rw [if_neg hi] at hp'
          exact Or.inl hp'
      · rcases hp' with ⟨c', hc', hv⟩
        exact Or.inr ⟨c', List.mem_cons_of_mem _ hc', hv⟩

/-! ### Lemmas about fallback mode -/

/-- A failing element is skipped by the per-element loop. -/
theorem processElem_failing {e : FallbackElem} (hf : e.failing = true) :
    processElem e = none := by
  simp [processElem, hf]

/-- The fallback products are exactly those of the non-failing elements:
every failing element is skipped. -/
theorem filterMap_processElem_filter (elems : List FallbackElem) :
    elems.filterMap processElem =
      (elems.filter fun e => !e.failing).filterMap processElem := by
  induction elems with
  | nil => rfl
  | cons e es ih =>
      by_cases hf : e.failing = true
      · rw [List.filterMap_cons, processElem_failing hf, ih]
        simp [List.filter_cons, hf]
      · have hf' : e.failing = false := by
          cases hfe : e.failing
          · rfl
          · exact absurd hfe hf
        rw [List.filterMap_cons, List.filter_cons]
        simp only [hf', Bool.not_false, if_pos trivial, List.filterMap_cons, ih]

/-! ### Lemmas about the pagination loop -/

/-- Default page used with `List.getD` in pagination statements. -/
def emptyPage : PageState := ⟨[], NextProbe.absent⟩

/-- The pagination loop over an environment whose pages all show rows,
whose "next" probe is enabled after every page but the last and not after
the last: it returns normally, visits every page exactly once (the final
`page_num` grows by the page count minus one), and appends one record per
row. -/
theorem extractLoop_run (h : List String) :
    ∀ (pages : List PageState) (n : Nat) (prods : List Dict),
      pages ≠ [] →
      (∀ p ∈ pages, p.rows ≠ []) →
      (∀ k < pages.length - 1, nextEnabled ((pages.getD k emptyPage).next) = true) →
      nextEnabled ((pages.getD (pages.length - 1) emptyPage).next) = false →
      ∃ products, extractLoop h pages n prods = Except.ok (products, n + pages.length - 1) ∧
        products.length = prods.length + (pages.map fun p => p.rows.length).sum := by
  intro pages
  induction pages with
  | nil => intro n prods hne; exact absurd rfl hne
  | cons p ps ih =>
      intro n prods _ hrows henabled hlast
      have hp : p.rows ≠ [] := hrows p (List.mem_cons_self _ _)
      match ps with
      | [] =>
          refine ⟨prods ++ p.rows.map (buildRecord h), ?_, ?_⟩
          · show extractLoop h [p] n prods = _
            rw [show extractLoop h [p] n prods =
              (if p.rows = [] then Except.error () else
                if nextEnabled p.next then extractLoop h [] (n + 1)
                  (prods ++ p.rows.map (buildRecord h))
                else Except.ok (prods ++ p.rows.map (buildRecord h), n)) from rfl]
            rw [if_neg hp, if_neg (by simpa using hlast)]
            rfl
          · simp
      | p2 :: ps2 =>
          have hen : nextEnabled p.next = true := by
            have := henabled 0 (by simp)
            simpa using this
          have hstep : extractLoop h (p :: p2 :: ps2) n prods =
              extractLoop h (p2 :: ps2) (n + 1) (prods ++ p.rows.map (buildRecord h)) := by
            rw [show extractLoop h (p :: p2 :: ps2) n prods =
              (if p.rows = [] then Except.error () else
                if nextEnabled p.next then extractLoop h (p2 :: ps2) (n + 1)
                  (prods ++ p.rows.map (buildRecord h))
                else Except.ok (prods ++ p.rows.map (buildRecord h), n)) from rfl]
            rw [if_neg hp, if_pos hen]
          obtain ⟨products, heq, hlen⟩ := ih (n + 1) (prods ++ p.rows.map (buildRecord h))
            (List.cons_ne_nil _ _)
            (fun q hq => hrows q (List.mem_cons_of_mem _ hq))
            (fun k hk => by
              have := henabled (k + 1) (by simp at hk ⊢; omega)
              simpa using this)
            (by
              have e1 : (p :: p2 :: ps2).length - 1 = ((p2 :: ps2).length - 1) + 1 := by
                simp
              rw [e1] at hlast
              simpa using hlast)
          refine ⟨products, ?_, ?_⟩
          · rw [hstep, heq]
            have e2 : n + 1 + (p2 :: ps2).length - 1 = n + (p :: p2 :: ps2).length - 1 := by
              simp; omega
            rw [e2]
          · rw [hlen]
            simp
            omega

/-- Keys of a row record are headers (specialisation of
`mem_dictKeys_buildRecordAux` to the empty accumulator). -/
theorem mem_dictKeys_buildRecord {h c : List String} {k : String}
    (hk : k ∈ dictKeys (buildRecord h c)) : k ∈ h := by
  rcases mem_dictKeys_buildRecordAux h c 0 [] k hk with hk' | hk'
  · cases hk'
  · exact hk'

/-- The row record maps `headers[i]` to the stripped text of cell `i`
whenever no later index below `min N H` carries the same header — in
particular at the last occurrence of each duplicated header. -/
theorem buildRecord_lookup_last (h c : List String) (i : Nat)
    (hi : i < min c.length h.length)
    (hlast : ∀ j, i < j → j < min c.length h.length → h.getD j "" ≠ h.getD i "") :
    dictLookup (buildRecord h c) (h.getD i "") = some (strip (c.getD i "")) := by
  have h1 : i < c.length := lt_of_lt_of_le hi (min_le_left _ _)
  have h2 : 0 + i < h.length := by
    rw [Nat.zero_add]; exact lt_of_lt_of_le hi (min_le_right _ _)
  have hcond : ∀ q, i < q → q < c.length → 0 + q < h.length →
      h.getD (0 + q) "" ≠ h.getD (0 + i) "" := by
    intro q hq hqlen hqh
    rw [Nat.zero_add] at hqh
    simp only [Nat.zero_add]
    exact hlast q hq (lt_min hqlen hqh)
  have := dictLookup_buildRecordAux_last h c 0 i [] h1 h2 hcond
  rw [Nat.zero_add] at this
  exact this

/-- Claim C1, corrected for duplicate headers: for every extracted row the
record's key set is a subset of the header set, and for every index
`i < min N H` at which the header does not occur again at a later index
below `min N H`, the record maps `header[i]` to the stripped text of cell
`i` (with duplicate headers, the later occurrence overwrites the value, so
the unrestricted claim fails — see `C1_counterexample`). -/
theorem C1_header_cell_mapping (h c : List String) :
    (∀ k, k ∈ dictKeys (buildRecord h c) → k ∈ h) ∧
    (∀ i, i < min c.length h.length →
      (∀ j, i < j → j < min c.length h.length → h.getD j "" ≠ h.getD i "") →
      dictLookup (buildRecord h c) (h.getD i "") = some (strip (c.getD i ""))) :=
  ⟨fun _ hk => mem_dictKeys_buildRecord hk,
   fun i hi hlast => buildRecord_lookup_last h c i hi hlast⟩

/-- Claim C1's counterexample: with headers `["A", "A"]` and cells
`["x", "y"]`, index 0 is below `min N H` but the record maps
`header[0] = "A"` to `"y"`, not to the stripped text of cell 0 (`"x"`):
the second cell overwrote it. -/
theorem C1_counterexample :
    0 < min (["x", "y"] : List String).length (["A", "A"] : List String).length ∧
    dictLookup (buildRecord ["A", "A"] ["x", "y"]) ((["A", "A"] : List String).getD 0 "")
      ≠ some (strip ((["x", "y"] : List String).getD 0 "")) := by decide

/-- Claim C10: with duplicate headers, each duplicated header is mapped to
the stripped text of the last cell (below `min N H`) carrying it; the
record can then have strictly fewer entries than `min N H` (as with
headers `["A", "A"]`, cells `["x", "y"]`: one entry against
`min N H = 2`), while every key still comes from the header list. -/
theorem C10_duplicate_headers :
    (∀ (h c : List String) (i : Nat), i < min c.length h.length →
      (∀ j, i < j → j < min c.length h.length → h.getD j "" ≠ h.getD i "") →
      dictLookup (buildRecord h c) (h.getD i "") = some (strip (c.getD i ""))) ∧
    (buildRecord ["A", "A"] ["x", "y"]).length <
      min (["x", "y"] : List String).length (["A", "A"] : List String).length ∧
    (∀ k, k ∈ dictKeys (buildRecord ["A", "A"] ["x", "y"]) →
      k ∈ (["A", "A"] : List String)) :=
  ⟨fun h c i hi hlast => buildRecord_lookup_last h c i hi hlast,
   by decide,
   fun _ hk => mem_dictKeys_buildRecord hk⟩

/-- Claim C2, corrected: over an environment of `P` pages, each showing at
least one data row, with the "next" affordance enabled after each of the
first `P-1` pages and absent/disabled/failing after page `P`, table-mode
extraction returns normally with one record per row (Σ rows records) and
the page counter equal to `P`.  (Without the at-least-one-row condition
the per-page row wait times out and extraction aborts — see
`C2_counterexample`.) -/
theorem C2_pagination (h : List String) (pages : List PageState)
    (hne : pages ≠ [])
    (hrows : ∀ p ∈ pages, p.rows ≠ [])
    (henabled : ∀ k < pages.length - 1,
      nextEnabled ((pages.getD k emptyPage).next) = true)
    (hlast : nextEnabled ((pages.getD (pages.length - 1) emptyPage).next) = false) :
    ∃ products, extract_product_data (PageStructure.withTable h pages) =
        ExtractOutcome.tableOk products pages.length ∧
      products.length = (pages.map fun p => p.rows.length).sum := by
  obtain ⟨products, heq, hlen⟩ :=
    extractLoop_run (h.map strip) pages 1 [] hne hrows henabled hlast
  refine ⟨products, ?_, by simpa using hlen⟩
  rw [show extract_product_data (PageStructure.withTable h pages) =
    (match extractLoop (h.map strip) pages 1 [] with
      | Except.ok (products, n) => ExtractOutcome.tableOk products n
      | Except.error _ => ExtractOutcome.tableError) from rfl, heq]
  have : 1 + pages.length - 1 = pages.length := by omega
  rw [this]

/-- Witness for C2: the spec's own scenario — 2 pages, 3 rows then 1 row,
"next" enabled (attribute absent) after page 1 and disabled after
page 2 — yields 4 records and a final page counter of 2. -/
theorem C2_pagination_witness :
    ∃ products, extract_product_data (PageStructure.withTable ["Name"]
        [⟨[["a"], ["b"], ["c"]], NextProbe.found none⟩,
         ⟨[["d"]], NextProbe.found (some "true")⟩]) =
      ExtractOutcome.tableOk products 2 ∧ products.length = 4 :=
  C2_pagination ["Name"]
    [⟨[["a"], ["b"], ["c"]], NextProbe.found none⟩,
     ⟨[["d"]], NextProbe.found (some "true")⟩]
    (by decide) (by decide) (by decide) (by decide)

/-- Claim C2's counterexample: a single table page with zero visible data
rows and no "next" affordance.  The claim as stated promises normal
termination with 0 records; the code's per-page
`wait_for_selector("table tbody tr")` times out and the extraction
re-raises instead. -/
theorem C2_counterexample :
    extract_product_data (PageStructure.withTable ["Name"] [⟨[], NextProbe.absent⟩]) =
      ExtractOutcome.tableError ∧
    nextEnabled ((([⟨[], NextProbe.absent⟩] : List PageState).getD 0 emptyPage).next)
      = false := by decide

/-- Claim C3: the two extraction modes are mutually exclusive and chosen
solely by the table probe — whenever a table element exists (whatever its
pages and rows, including none), the outcome is a table-mode outcome and
fallback never runs; without a table the outcome is always fallback. -/
theorem C3_mode_choice (h : List String) (pages : List PageState)
    (elems : List FallbackElem) :
    isFallback (extract_product_data (PageStructure.withTable h pages)) = false ∧
    isFallback (extract_product_data (PageStructure.noTable elems)) = true := by
  constructor
  · rw [show extract_product_data (PageStructure.withTable h pages) =
      (match extractLoop (h.map strip) pages 1 [] with
        | Except.ok (products, n) => ExtractOutcome.tableOk products n
        | Except.error _ => ExtractOutcome.tableError) from rfl]
    cases hE : extractLoop (h.map strip) pages 1 [] with
    | error e => rfl
    | ok v => obtain ⟨products, n⟩ := v; rfl
  · rfl

/-- Claim C4: fallback mode never raises out of the run — its outcome is
never the re-raised table abort; a failing container element is skipped
(the products are those of the non-failing elements alone); and with zero
container elements a single placeholder record is emitted together with
the page-content dump. -/
theorem C4_fallback_graceful (elems : List FallbackElem) :
    isError (extract_product_data (PageStructure.noTable elems)) = false ∧
    (elems = [] → extract_product_data (PageStructure.noTable elems) =
      ExtractOutcome.fallbackOk [placeholderRecord] true) ∧
    fallbackExtract elems = fallbackExtract (elems.filter fun e => !e.failing) := by
  refine ⟨rfl, ?_, ?_⟩
  · rintro rfl; rfl
  · simp only [fallbackExtract]
    rw [filterMap_processElem_filter]

/-- Claim C5: `save_session` with an empty captured state (no cookies, no
origin entries) does not write the session file and only warns; with a
non-empty state it writes the file. -/
theorem C5_empty_session_guard (s : StorageState) :
    (s.cookies = [] ∧ s.origins = [] → save_session s = SaveAction.warnEmpty) ∧
    (s.cookies ≠ [] ∨ s.origins ≠ [] → save_session s = SaveAction.writeFile s) := by
  obtain ⟨cs, os⟩ := s
  constructor
  · rintro ⟨rfl, rfl⟩; rfl
  · rintro (hc | ho)
    · cases cs with
      | nil => exact absurd rfl hc
      | cons a l => rfl
    · cases os with
      | nil => exact absurd rfl ho
      | cons a l => cases cs <;> rfl

/-- Claim C6's counterexample: a fallback container whose name sub-element
text is `" x "` produces the record value `" x "` exactly as read — the
value is not stripped, refuting "every value stored in every Product
Record is the whitespace-trimmed text". -/
theorem C6_counterexample :
    extract_product_data (PageStructure.noTable
        [⟨some " x ", none, "", false⟩]) =
      ExtractOutcome.fallbackOk [[("Name", " x ")]] false ∧
    strip " x " ≠ " x " := by decide

/-- Claim C6, corrected: table-mode record values are the stripped cell
texts, but fallback-mode values (Name, Price, Content) are the raw,
unstripped text contents of the corresponding elements. -/
theorem C6_value_provenance (h c : List String) (e : FallbackElem) :
    (∀ p ∈ buildRecord h c, ∃ cell ∈ c, p.2 = strip cell) ∧
    (e.failing = false → ∀ d, processElem e = some d → ∀ p ∈ d,
      some p.2 = e.nameText ∨ some p.2 = e.priceText ∨ p.2 = e.text) := by
  constructor
  · intro p hp
    rcases mem_buildRecordAux h c 0 [] p hp with hp' | hp'
    · cases hp'
    · exact hp'
  · obtain ⟨nt, pt, tx, fl⟩ := e
    intro hf d hd p hp
    subst hf
    rcases nt with _ | ns <;> rcases pt with _ | ps
    · rw [show processElem ⟨none, none, tx, false⟩ = some [("Content", tx)] from rfl,
        Option.some.injEq] at hd
      subst hd
      rcases List.mem_singleton.mp hp with rfl
      exact Or.inr (Or.inr rfl)
    · rw [show processElem ⟨none, some ps, tx, false⟩ = some [("Price", ps)] from rfl,
        Option.some.injEq] at hd
      subst hd
      rcases List.mem_singleton.mp hp with rfl
      exact Or.inr (Or.inl rfl)
    · rw [show processElem ⟨some ns, none, tx, false⟩ = some [("Name", ns)] from rfl,
        Option.some.injEq] at hd
      subst hd
      rcases List.mem_singleton.mp hp with rfl
      exact Or.inl rfl
    · rw [show processElem ⟨some ns, some ps, tx, false⟩ =
        some [("Name", ns), ("Price", ps)] from rfl, Option.some.injEq] at hd
      subst hd
      rcases List.mem_cons.mp hp with rfl | hp2
      · exact Or.inl rfl
      · rcases List.mem_singleton.mp hp2 with rfl
        exact Or.inr (Or.inl rfl)

/-- Claim C7: when the three earlier required affordances appear but the
final one ("Show Full Product Table") never does, navigation ends
unsuccessfully (the exception propagates — no retry) after writing both
the diagnostic screenshot and the raw page-content dump. -/
theorem C7_final_step_diagnostics (env : NavEnv)
    (h1 : env.openOptions = true) (h2 : env.inventoryTab = true)
    (h3 : env.detailedViewButton = true) (h4 : env.showTableButton = false) :
    (navigate_to_product_table env).ok = false ∧
    "debug_screenshot.png" ∈ (navigate_to_product_table env).artifacts ∧
    "page_content.html" ∈ (navigate_to_product_table env).artifacts := by
  obtain ⟨o, it, dv, dg, st⟩ := env
  subst h1; subst h2; subst h3; subst h4
  refine ⟨rfl, ?_, ?_⟩
  · show "debug_screenshot.png" ∈
      (["debug_screenshot.png", "page_content.html", "error_screenshot.png"] : List String)
    decide
  · show "page_content.html" ∈
      (["debug_screenshot.png", "page_content.html", "error_screenshot.png"] : List String)
    decide

/-- Witness for C7 at a concrete environment. -/
theorem C7_final_step_diagnostics_witness :
    (navigate_to_product_table ⟨true, true, true, true, false⟩).ok = false ∧
    "debug_screenshot.png" ∈
      (navigate_to_product_table ⟨true, true, true, true, false⟩).artifacts ∧
    "page_content.html" ∈
      (navigate_to_product_table ⟨true, true, true, true, false⟩).artifacts :=
  C7_final_step_diagnostics ⟨true, true, true, true, false⟩ rfl rfl rfl rfl

/-- Claim C8: a run writes the session file at most once; on the
existing-session path (session loaded and not a login page) it writes
nothing; and a write implies the fresh-authentication branch was taken. -/
theorem C8_session_write_once (sessionLoaded loginPage authOk : Bool)
    (s : StorageState) :
    run_session_write_count sessionLoaded loginPage authOk s ≤ 1 ∧
    (sessionLoaded = true → loginPage = false →
      run_session_write_count sessionLoaded loginPage authOk s = 0) ∧
    (run_session_write_count sessionLoaded loginPage authOk s = 1 →
      freshAuthPath sessionLoaded loginPage = true) := by
  have hsave : save_write_count (save_session s) ≤ 1 := by
    cases save_session s <;> simp [save_write_count]
  cases sessionLoaded <;> cases loginPage <;> cases authOk <;>
    simp [run_session_write_count, freshAuthPath] <;> exact hsave

/-- Claim C9: a visible "next" button whose `disabled` attribute is
present but empty is treated as enabled — Python falsiness of `""` drives
the branch — so the loop clicks it and continues with the next page
instead of terminating. -/
theorem C9_empty_disabled_attribute (h : List String) (p : PageState)
    (rest : List PageState) (n : Nat) (prods : List Dict)
    (hnext : p.next = NextProbe.found (some "")) (hrows : p.rows ≠ []) :
    nextEnabled p.next = true ∧
    extractLoop h (p :: rest) n prods =
      extractLoop h rest (n + 1) (prods ++ p.rows.map (buildRecord h)) := by
  have hen : nextEnabled p.next = true := by rw [hnext]; rfl
  refine ⟨hen, ?_⟩
  rw [show extractLoop h (p :: rest) n prods =
    (if p.rows = [] then Except.error () else
      if nextEnabled p.next then extractLoop h rest (n + 1)
        (prods ++ p.rows.map (buildRecord h))
      else Except.ok (prods ++ p.rows.map (buildRecord h), n)) from rfl]
  rw [if_neg hrows, if_pos hen]

/-- Witness for C9 at a concrete page whose "next" button carries
`disabled=""`. -/
theorem C9_empty_disabled_attribute_witness :
    nextEnabled ((⟨[["x"]], NextProbe.found (some "")⟩ : PageState).next) = true ∧
    extractLoop ["A"] [⟨[["x"]], NextProbe.found (some "")⟩] 1 [] =
      extractLoop ["A"] [] 2 ([] ++ [["x"]].map (buildRecord ["A"])) :=
  C9_empty_disabled_attribute ["A"] ⟨[["x"]], NextProbe.found (some "")⟩ [] 1 []
    rfl (by decide)

end ProductExtractor
